import Mathlib

/-!
Verification development for the text-generation / summarization service
(`src/services/text_generation.py`).

Strings are modelled as `List Char`.  The Python regular expressions used by
the source operate, on the ASCII inputs relevant here, as follows:
`\w` matches `[A-Za-z0-9_]`, `\s` matches ASCII whitespace, and
`re.findall(r"\b\w+\b", s)` returns the maximal runs of word characters.
`re.split(r"(?<=[.!?])\s+", s)` splits at each maximal whitespace run whose
preceding character is one of `.`, `!`, `?`.  These behaviours are embedded
directly below.
-/

namespace TextService

/-- `\w` word character: alphanumeric or underscore (ASCII). -/
def isWordChar (c : Char) : Bool := c.isAlphanum || c == '_'

/-- Sentence-terminal punctuation recognised by the summarizer's split
pattern `(?<=[.!?])\s+`. -/
def isSentTerm (c : Char) : Bool := c == '.' || c == '!' || c == '?'

/-- `\s` whitespace character (ASCII range, as used by `str.strip` and the
split pattern on ASCII text). -/
def isSpaceChar (c : Char) : Bool :=
  c == ' ' || c == '\t' || c == '\n' || c == '\r' || c == '\x0b' || c == '\x0c'

/-- `str.strip()`: remove leading and trailing whitespace. -/
def stripChars (cs : List Char) : List Char :=
  ((cs.dropWhile isSpaceChar).reverse.dropWhile isSpaceChar).reverse

/-- Scanner for `re.findall(r"\b\w+\b", s)`: `cur` is the current word
being read, in reverse. -/
def findWordsAux : List Char → List Char → List (List Char)
  | [], cur => if cur.isEmpty then [] else [cur.reverse]
  | c :: rest, cur =>
    if isWordChar c then
      findWordsAux rest (c :: cur)
    else if cur.isEmpty then
      findWordsAux rest []
    else
      cur.reverse :: findWordsAux rest []

/-- `re.findall(r"\b\w+\b", s)`: the maximal runs of word characters of `s`,
in order. -/
def findWords (cs : List Char) : List (List Char) := findWordsAux cs []

/-- Whether a list of characters starts with a sentence terminator. -/
def headIsTerm : List Char → Bool
  | [] => false
  | c :: _ => isSentTerm c

/-- Scanner for `re.split(r"(?<=[.!?])\s+", s)`.  `cur` is the current
fragment in reverse; `inRun` says whether we are inside the whitespace run
of a boundary match (a maximal whitespace run whose preceding character is
a sentence terminator). -/
def splitSentencesAux : Bool → List Char → List Char → List (List Char)
  | _, cur, [] => [cur.reverse]
  | true, cur, c :: rest =>
    if isSpaceChar c then
      splitSentencesAux true cur rest
    else
      splitSentencesAux false [c] rest
  | false, cur, c :: rest =>
    if headIsTerm cur && isSpaceChar c then
      cur.reverse :: splitSentencesAux true [] rest
    else
      splitSentencesAux false (c :: cur) rest

/-- `re.split(r"(?<=[.!?])\s+", s)`: cut at each maximal whitespace run
that is preceded by a sentence terminator.  Returns the fragments (possibly
empty ones, as `re.split` does). -/
def splitSentences (cs : List Char) : List (List Char) :=
  splitSentencesAux false [] cs

/-- Whether the text contains an occurrence of `.`, `!` or `?` immediately
followed by a whitespace character — i.e. whether the split pattern
`(?<=[.!?])\s+` matches anywhere. -/
def hasBoundary : List Char → Bool
  | a :: b :: rest => (isSentTerm a && isSpaceChar b) || hasBoundary (b :: rest)
  | _ => false

namespace TextSummarizer

/-- The stopword set of `TextSummarizer._default_stopwords`. -/
def stopwords : List (List Char) :=
  (["a", "about", "above", "after", "again", "against", "all", "am", "an",
    "and", "any", "are", "as", "at", "be", "because", "been", "before",
    "being", "below", "between", "both", "but", "by", "could", "did", "do",
    "does", "doing", "down", "during", "each", "few", "for", "from",
    "further", "had", "has", "have", "having", "he", "her", "here", "hers",
    "herself", "him", "himself", "his", "how", "i", "if", "in", "into",
    "is", "it", "its", "itself", "just", "me", "more", "most", "my",
    "myself", "no", "nor", "not", "now", "of", "off", "on", "once", "only",
    "or", "other", "our", "ours", "ourselves", "out", "over", "own", "same",
    "she", "should", "so", "some", "such", "than", "that", "the", "their",
    "theirs", "them", "themselves", "then", "there", "these", "they",
    "this", "those", "through", "to", "too", "under", "until", "up", "very",
    "was", "we", "were", "what", "when", "where", "which", "while", "who",
    "whom", "why", "will", "with", "you", "your", "yours", "yourself",
    "yourselves"].map String.data)

/-- `word in self.stopwords`. -/
def isStop (w : List Char) : Bool := stopwords.contains w

/-- `TextSummarizer._tokenize_sentences`: strip the text, split on sentence
boundaries, drop empty fragments. -/
def tokenizeSentences (text : List Char) : List (List Char) :=
  (splitSentences (stripChars text)).filter (fun s => !s.isEmpty)

/-- `TextSummarizer._tokenize_words`: lowercase, then take maximal runs of
word characters. -/
def tokenizeWords (s : List Char) : List (List Char) :=
  findWords (s.map Char.toLower)

/-- All word tokens of all sentences, in order. -/
def allTokens (sents : List (List Char)) : List (List Char) :=
  (sents.map tokenizeWords).flatten

/-- The `Counter` of non-stopword tokens: `freq.get(w, 0)` is the number of
occurrences of `w` among the non-stopword tokens of all sentences. -/
def wordFreq (sents : List (List Char)) (w : List Char) : Nat :=
  (((sents.map tokenizeWords).flatten).filter (fun x => !isStop x)).count w

/-- The score of one sentence: sum of the global frequencies of its
non-stopword token occurrences. -/
def sentenceScore (sents : List (List Char)) (s : List Char) : Nat :=
  (tokenizeWords s).foldl
    (fun acc w => if isStop w then acc else acc + wordFreq sents w) 0

/-- The `(score, idx, sentence)` triples of `TextSummarizer.summarize`. -/
def scoredSentences (sents : List (List Char)) : List (Nat × Nat × List Char) :=
  sents.enum.map (fun p => (sentenceScore sents p.2, p.1, p.2))

/-- The order corresponding to Python's `sorted` key `(-score, idx)`. -/
def scoreRel (a b : Nat × Nat × List Char) : Prop :=
  b.1 < a.1 ∨ (a.1 = b.1 ∧ a.2.1 ≤ b.2.1)

/-- The order corresponding to Python's `sorted` key `idx`. -/
def idxRel (a b : Nat × Nat × List Char) : Prop :=
  a.2.1 ≤ b.2.1

instance : DecidableRel scoreRel := fun a b => by
  unfold scoreRel; exact inferInstance

instance : DecidableRel idxRel := fun a b => by
  unfold idxRel; exact inferInstance

instance : IsTotal (Nat × Nat × List Char) scoreRel :=
  ⟨by intro a b; unfold scoreRel; omega⟩

instance : IsTrans (Nat × Nat × List Char) scoreRel :=
  ⟨by intro a b c; unfold scoreRel; omega⟩

instance : IsTotal (Nat × Nat × List Char) idxRel :=
  ⟨by intro a b; unfold idxRel; omega⟩

instance : IsTrans (Nat × Nat × List Char) idxRel :=
  ⟨by intro a b c; unfold idxRel; omega⟩

/-- `TextSummarizer.summarize`.  Python's `sorted` is a stable sort; since
all sort keys here are pairwise distinct (each triple carries its distinct
original index, which is part of both sort keys' tie-breaking), any sorting
algorithm for the same order produces the identical list, so
`List.insertionSort` embeds `sorted` faithfully. -/
def summarize (text : List Char) (maxSentences : Nat) : List Char :=
  let sentences := tokenizeSentences text
  if sentences.length ≤ maxSentences then text
  else
    let scored := scoredSentences sentences
    let top := (List.insertionSort scoreRel scored).take maxSentences
    let topSorted := List.insertionSort idxRel top
    List.intercalate [' '] (topSorted.map (fun t => t.2.2))

end TextSummarizer

namespace MarkovChainGenerator

/-- A word token. -/
abbrev Word := List Char

/-- An ordered pair of words, the transition-table key. -/
abbrev Bigram := Word × Word

/-- The transition table `self.chain`, modelled as an insertion-ordered
association list (Python dicts preserve insertion order, and
`list(self.chain.keys())` enumerates keys in that order). -/
abbrev Chain := List (Bigram × List Word)

/-- The only error `generate` can raise: `random.choice` on an empty
sequence raises `IndexError`.  The code has no other error kind — in
particular no distinct "model not trained" error. -/
inductive GenError where
  | emptyChoice
deriving DecidableEq, Repr

/-- `list(self.chain.keys())`. -/
def keys (chain : Chain) : List Bigram := chain.map (fun e => e.1)

/-- `self.chain.get(key)`: non-inserting dictionary lookup. -/
def dictGet (chain : Chain) (k : Bigram) : Option (List Word) :=
  (chain.find? (fun e => e.1 == k)).map (fun e => e.2)

/-- `random.choice(xs)` with the random source modelled as an oracle
`r : Nat → Nat`; the `n`-th random draw selects index `r n mod xs.length`.
On an empty sequence it raises (`IndexError`). -/
def choice (r : Nat → Nat) (n : Nat) : List α → Except GenError α
  | [] => .error .emptyChoice
  | x :: xs => .ok ((x :: xs).get ⟨r n % (xs.length + 1), Nat.mod_lt _ (Nat.succ_pos _)⟩)

/-- `re.findall(r"\b\w+\b", prompt.lower())`. -/
def promptTokens (prompt : List Char) : List Word :=
  findWords (prompt.map Char.toLower)

/-- `(l[-2], l[-1])` for a list with at least two elements. -/
def last2 (l : List Word) : Bigram :=
  (l.getD (l.length - 2) [], l.getD (l.length - 1) [])

/-- The seed-selection phase of `generate` (lines 124-146): returns the
number of random draws consumed and the initial `generated_words`. -/
def seedSelect (chain : Chain) (pw : List Word) (r : Nat → Nat) :
    Except GenError (Nat × List Word) :=
  if 2 ≤ pw.length then
    if (dictGet chain (last2 pw)).isSome then
      .ok (0, pw)
    else
      match choice r 0 (keys chain) with
      | .error e => .error e
      | .ok k => .ok (1, [k.1, k.2])
  else if pw.length = 1 then
    let first := pw.getD 0 []
    let candidates := (keys chain).filter (fun k => k.1 == first)
    if candidates.isEmpty then
      match choice r 0 (keys chain) with
      | .error e => .error e
      | .ok k => .ok (1, [k.1, k.2])
    else
      match choice r 0 candidates with
      | .error e => .error e
      | .ok k => .ok (1, [first, k.2])
  else
    match choice r 0 (keys chain) with
    | .error e => .error e
    | .ok k => .ok (1, [k.1, k.2])

/-- The extension loop of `generate` (lines 149-158).  A present key with a
non-empty successor list appends one sampled follower; a missing key or an
empty successor list (`if not followers`) appends both words of a fresh
random key.  Every iteration grows `gw` by at least one word, so the loop
runs at most `maxLength - gw.length` times; `fuel` is a structural bound on
the remaining iterations and is never exhausted when
`maxLength ≤ fuel + gw.length`, which `rawWords` establishes by passing
`fuel = maxLength`. -/
def extendLoop (chain : Chain) (r : Nat → Nat) (maxLength : Nat) :
    Nat → Nat → List Word → Except GenError (List Word)
  | 0, _, gw => .ok gw
  | fuel + 1, n, gw =>
    if gw.length < maxLength then
      match dictGet chain (last2 gw) with
      | some (f :: fs) =>
        match choice r n (f :: fs) with
        | .error e => .error e
        | .ok w => extendLoop chain r maxLength fuel (n + 1) (gw ++ [w])
      | _ =>
        match choice r n (keys chain) with
        | .error e => .error e
        | .ok k => extendLoop chain r maxLength fuel (n + 1) (gw ++ [k.1, k.2])
    else
      .ok gw

/-- `prompt and prompt[0].isupper()`. -/
def promptCap (prompt : List Char) : Bool :=
  match prompt with
  | [] => false
  | c :: _ => c.isUpper

/-- Python `str.capitalize()`: first character uppercased, the remainder
lowercased. -/
def pyCapitalize (w : Word) : Word :=
  match w with
  | [] => []
  | c :: cs => c.toUpper :: cs.map Char.toLower

/-- `generated_words[0] = generated_words[0].capitalize()`. -/
def capFirst (gw : List Word) : List Word :=
  match gw with
  | [] => []
  | w :: ws => pyCapitalize w :: ws

/-- Seed selection followed by the extension loop: the word list before the
capitalization post-processing. -/
def rawWords (chain : Chain) (prompt : List Char) (r : Nat → Nat)
    (maxLength : Nat) : Except GenError (List Word) :=
  match seedSelect chain (promptTokens prompt) r with
  | .error e => .error e
  | .ok (n, gw0) => extendLoop chain r maxLength maxLength n gw0

/-- The word list of `MarkovChainGenerator.generate`, after the
capitalization post-processing (lines 160-162). -/
def generateWords (chain : Chain) (prompt : List Char) (r : Nat → Nat)
    (maxLength : Nat) : Except GenError (List Word) :=
  match rawWords chain prompt r maxLength with
  | .error e => .error e
  | .ok gw => .ok (if promptCap prompt then capFirst gw else gw)

/-- `MarkovChainGenerator.generate`: `" ".join(generated_words)`. -/
def generate (chain : Chain) (prompt : List Char) (r : Nat → Nat)
    (maxLength : Nat) : Except GenError (List Char) :=
  match generateWords chain prompt r maxLength with
  | .error e => .error e
  | .ok gw => .ok (List.intercalate [' '] gw)

/-- `self.chain[key].append(w)` on the defaultdict: append to an existing
key's successor list, or create the key (at the end, in insertion order)
with the one-element list. -/
def addSucc (chain : Chain) (key : Bigram) (w : Word) : Chain :=
  if chain.any (fun e => e.1 == key) then
    chain.map (fun e => if e.1 == key then (e.1, e.2 ++ [w]) else e)
  else
    chain ++ [(key, [w])]

/-- The loop of `_build_chain`: for each position with a third token,
append `words[i+2]` under key `(words[i], words[i+1])`. -/
def buildChainAux (chain : Chain) : List Word → Chain
  | a :: b :: c :: rest => buildChainAux (addSucc chain (a, b) c) (b :: c :: rest)
  | _ => chain

/-- `MarkovChainGenerator._build_chain` applied to a token list. -/
def buildChain (ws : List Word) : Chain := buildChainAux [] ws

/-! State-threaded variants of the table accesses used by `generate`.
Each primitive returns the (possibly updated) table together with its
result, so that table mutation — were there any — would be visible.  The
source only uses the non-mutating dictionary operations `.get`, `in` and
`.keys()`; by contrast a defaultdict subscript `self.chain[key]` would
insert an empty successor list on a miss (`defaultdictItemS` below), which
`generate` never performs. -/

/-- `self.chain.get(key)`, state-threaded: never mutates. -/
def dictGetS (chain : Chain) (k : Bigram) : Chain × Option (List Word) :=
  (chain, dictGet chain k)

/-- `key in self.chain`, state-threaded: never mutates. -/
def dictMemS (chain : Chain) (k : Bigram) : Chain × Bool :=
  (chain, (dictGet chain k).isSome)

/-- `list(self.chain.keys())`, state-threaded: never mutates. -/
def dictKeysS (chain : Chain) : Chain × List Bigram :=
  (chain, keys chain)

/-- `self.chain[key]` on the defaultdict: inserts `[]` on a miss.  Present
only to document the mutating access that `generate` does not use. -/
def defaultdictItemS (chain : Chain) (k : Bigram) : Chain × List Word :=
  match dictGet chain k with
  | some v => (chain, v)
  | none => (chain ++ [(k, [])], [])

/-- State-threaded seed selection. -/
def seedSelectT (chain : Chain) (pw : List Word) (r : Nat → Nat) :
    Chain × Except GenError (Nat × List Word) :=
  if 2 ≤ pw.length then
    let (chain1, found) := dictMemS chain (last2 pw)
    if found then
      (chain1, .ok (0, pw))
    else
      let (chain2, ks) := dictKeysS chain1
      match choice r 0 ks with
      | .error e => (chain2, .error e)
      | .ok k => (chain2, .ok (1, [k.1, k.2]))
  else if pw.length = 1 then
    let first := pw.getD 0 []
    let (chain1, ks) := dictKeysS chain
    let candidates := ks.filter (fun k => k.1 == first)
    if candidates.isEmpty then
      let (chain2, ks2) := dictKeysS chain1
      match choice r 0 ks2 with
      | .error e => (chain2, .error e)
      | .ok k => (chain2, .ok (1, [k.1, k.2]))
    else
      match choice r 0 candidates with
      | .error e => (chain1, .error e)
      | .ok k => (chain1, .ok (1, [first, k.2]))
  else
    let (chain1, ks) := dictKeysS chain
    match choice r 0 ks with
    | .error e => (chain1, .error e)
    | .ok k => (chain1, .ok (1, [k.1, k.2]))

/-- State-threaded extension loop (same fuel discipline as `extendLoop`). -/
def extendLoopT (chain : Chain) (r : Nat → Nat) (maxLength : Nat) :
    Nat → Nat → List Word → Chain × Except GenError (List Word)
  | 0, _, gw => (chain, .ok gw)
  | fuel + 1, n, gw =>
    if gw.length < maxLength then
      match dictGetS chain (last2 gw) with
      | (chain1, some (f :: fs)) =>
        match choice r n (f :: fs) with
        | .error e => (chain1, .error e)
        | .ok w => extendLoopT chain1 r maxLength fuel (n + 1) (gw ++ [w])
      | (chain1, _) =>
        let (chain2, ks) := dictKeysS chain1
        match choice r n ks with
        | .error e => (chain2, .error e)
        | .ok k => extendLoopT chain2 r maxLength fuel (n + 1) (gw ++ [k.1, k.2])
    else
      (chain, .ok gw)

/-- State-threaded `generate`: returns the table as left by the call
together with the produced string. -/
def generateT (chain : Chain) (prompt : List Char) (r : Nat → Nat)
    (maxLength : Nat) : Chain × Except GenError (List Char) :=
  match seedSelectT chain (promptTokens prompt) r with
  | (chain1, .error e) => (chain1, .error e)
  | (chain1, .ok (n, gw0)) =>
    match extendLoopT chain1 r maxLength maxLength n gw0 with
    | (chain2, .error e) => (chain2, .error e)
    | (chain2, .ok gw) =>
      (chain2, .ok (List.intercalate [' ']
        (if promptCap prompt then capFirst gw else gw)))

end MarkovChainGenerator

end TextService

section Claims

open TextService TextService.TextSummarizer TextService.MarkovChainGenerator

/-! ### Helper lemmas -/

/-- `summarize` returns its input verbatim whenever the sentence count is at
most `maxSentences` (shared helper). -/
theorem summarize_eq_of_le (text : List Char) (maxSentences : Nat)
    (h : (tokenizeSentences text).length ≤ maxSentences) :
    summarize text maxSentences = text := by
  simp only [summarize]
  rw [if_pos h]

theorem hasBoundary_tail {a : Char} {cs : List Char}
    (h : hasBoundary (a :: cs) = false) : hasBoundary cs = false := by
  cases cs with
  | nil => rfl
  | cons b rest =>
    have := h
    simp only [hasBoundary, Bool.or_eq_false_iff] at this
    exact this.2

theorem hasBoundary_drop_front :
    ∀ (l s : List Char), hasBoundary (l ++ s) = false → hasBoundary s = false := by
  intro l
  induction l with
  | nil => intro s h; simpa using h
  | cons a l ih =>
    intro s h
    exact ih s (hasBoundary_tail (by simpa using h))

theorem hasBoundary_take_front :
    ∀ (p q : List Char), hasBoundary (p ++ q) = false → hasBoundary p = false := by
  intro p
  induction p with
  | nil => intro q _; rfl
  | cons a p ih =>
    intro q h
    cases p with
    | nil => rfl
    | cons b p2 =>
      simp only [List.cons_append, hasBoundary, Bool.or_eq_false_iff] at h ⊢
      exact ⟨h.1, by simpa [hasBoundary] using ih q (by simpa using h.2)⟩

theorem hasBoundary_pair (xs ys : List Char) (a b : Char)
    (h : hasBoundary (xs ++ a :: b :: ys) = false) :
    (isSentTerm a && isSpaceChar b) = false := by
  have h2 : hasBoundary (a :: b :: ys) = false := hasBoundary_drop_front xs _ h
  simp only [hasBoundary, Bool.or_eq_false_iff] at h2
  exact h2.1

theorem splitSentencesAux_no_boundary :
    ∀ (cs cur : List Char), hasBoundary (cur.reverse ++ cs) = false →
      splitSentencesAux false cur cs = [cur.reverse ++ cs] := by
  intro cs
  induction cs with
  | nil => intro cur _; simp [splitSentencesAux]
  | cons c rest ih =>
    intro cur h
    cases cur with
    | nil =>
      simp only [splitSentencesAux, headIsTerm, Bool.false_and, if_neg Bool.false_ne_true]
      simpa using ih [c] (by simpa using h)
    | cons t cur2 =>
      have hpair : (isSentTerm t && isSpaceChar c) = false := by
        refine hasBoundary_pair cur2.reverse rest t c ?_
        simpa [List.append_assoc] using h
      have hcond : (headIsTerm (t :: cur2) && isSpaceChar c) = false := by
        simpa [headIsTerm] using hpair
      simp only [splitSentencesAux, hcond, if_neg Bool.false_ne_true]
      have := ih (c :: t :: cur2) (by simpa [List.append_assoc] using h)
      simpa [List.append_assoc] using this

theorem dropWhile_decomp (p : Char → Bool) :
    ∀ cs : List Char, ∃ l, cs = l ++ cs.dropWhile p := by
  intro cs
  induction cs with
  | nil => exact ⟨[], rfl⟩
  | cons c rest ih =>
    by_cases hp : p c
    · obtain ⟨l, hl⟩ := ih
      exact ⟨c :: l, by simpa [List.dropWhile, hp] using congrArg (c :: ·) hl⟩
    · exact ⟨[], by simp [List.dropWhile, hp]⟩

theorem stripChars_decomp (cs : List Char) :
    ∃ l r, cs = l ++ stripChars cs ++ r := by
  obtain ⟨l, hl⟩ := dropWhile_decomp isSpaceChar cs
  obtain ⟨m, hm⟩ := dropWhile_decomp isSpaceChar (cs.dropWhile isSpaceChar).reverse
  refine ⟨l, m.reverse, ?_⟩
  have ht : cs.dropWhile isSpaceChar = stripChars cs ++ m.reverse := by
    have := congrArg List.reverse hm
    simpa [stripChars] using this
  exact hl.trans (by rw [ht]; exact (List.append_assoc _ _ _).symm)

theorem hasBoundary_stripChars (cs : List Char) (h : hasBoundary cs = false) :
    hasBoundary (stripChars cs) = false := by
  obtain ⟨l, r, hd⟩ := stripChars_decomp cs
  rw [hd] at h
  exact hasBoundary_take_front _ _ (hasBoundary_drop_front l _ (by simpa [List.append_assoc] using h))

/-! ### Claims -/

/-- C1: for every input whose sentence count (splitting on `.`, `!` or `?`
immediately followed by whitespace and dropping empty fragments) is at most
`maxSentences`, `summarize` returns the original input string unchanged,
character for character. -/
theorem summarize_few_sentences_returns_input (text : List Char)
    (maxSentences : Nat)
    (h : (tokenizeSentences text).length ≤ maxSentences) :
    summarize text maxSentences = text :=
  summarize_eq_of_le text maxSentences h

/-- Witness for C1 at a concrete input. -/
theorem summarize_few_sentences_returns_input_witness :
    (tokenizeSentences "Hello there. How are you?".data).length ≤ 3 ∧
      summarize "Hello there. How are you?".data 3 =
        "Hello there. How are you?".data :=
  ⟨by decide, summarize_few_sentences_returns_input _ 3 (by decide)⟩

/-- C6 counterexample: `summarize("A. B. C. D.", 2)` does not return
`"A. B."`. -/
theorem summarize_abcd_not_A_B :
    summarize "A. B. C. D.".data 2 ≠ "A. B.".data := by decide

/-- C6 amended: `summarize("A. B. C. D.", 2)` returns `"B. C."`: the word
`a` is in the stopword list, so the sentence `A.` scores `0` while `B.`,
`C.`, `D.` each score `1`; the tie-break on the three equally scored
sentences keeps `B.` and `C.`, re-sorted into original order. -/
theorem summarize_abcd_eq_B_C :
    summarize "A. B. C. D.".data 2 = "B. C.".data ∧
      isStop "a".data = true ∧
      sentenceScore (tokenizeSentences "A. B. C. D.".data) "A.".data = 0 ∧
      sentenceScore (tokenizeSentences "A. B. C. D.".data) "B.".data = 1 ∧
      sentenceScore (tokenizeSentences "A. B. C. D.".data) "C.".data = 1 ∧
      sentenceScore (tokenizeSentences "A. B. C. D.".data) "D.".data = 1 := by
  refine ⟨by decide, by decide, by decide, by decide, by decide, by decide⟩

/-- C10: for every `maxSentences ≥ 1` and every input containing no
occurrence of `.`, `!` or `?` immediately followed by whitespace, the text
splits into at most one sentence and `summarize` returns the input
unchanged (the function is total — nothing is raised). -/
theorem summarize_boundary_free_returns_input (text : List Char)
    (maxSentences : Nat) (h1 : 1 ≤ maxSentences)
    (hb : hasBoundary text = false) :
    (tokenizeSentences text).length ≤ 1 ∧
      summarize text maxSentences = text := by
  have hs : splitSentences (stripChars text) = [stripChars text] := by
    have := splitSentencesAux_no_boundary (stripChars text) []
      (by simpa using hasBoundary_stripChars text hb)
    simpa [splitSentences] using this
  have hlen : (tokenizeSentences text).length ≤ 1 := by
    unfold tokenizeSentences
    rw [hs]
    cases hstrip : (stripChars text).isEmpty <;> simp [List.filter, hstrip]
  exact ⟨hlen, summarize_eq_of_le text maxSentences (le_trans hlen h1)⟩

/-- Witness for C10 at a concrete input. -/
theorem summarize_boundary_free_returns_input_witness :
    (1 : Nat) ≤ 1 ∧ hasBoundary "no sentence breaks in this text".data = false ∧
      ((tokenizeSentences "no sentence breaks in this text".data).length ≤ 1 ∧
        summarize "no sentence breaks in this text".data 1 =
          "no sentence breaks in this text".data) :=
  ⟨by decide, by decide,
    summarize_boundary_free_returns_input _ 1 (by decide) (by decide)⟩

/-! ### Generator helper lemmas -/

theorem keys_ne_nil {chain : Chain} (hne : chain ≠ []) : keys chain ≠ [] := by
  cases chain with
  | nil => exact absurd rfl hne
  | cons e es => exact List.cons_ne_nil _ _

theorem choice_ok_of_ne_nil {α : Type} (r : Nat → Nat) (n : Nat)
    (xs : List α) (h : xs ≠ []) :
    ∃ x, choice r n xs = .ok x ∧ x ∈ xs := by
  cases xs with
  | nil => exact absurd rfl h
  | cons a as => exact ⟨_, rfl, List.get_mem _ _ _⟩

theorem capFirst_length (gw : List Word) : (capFirst gw).length = gw.length := by
  cases gw <;> simp [capFirst]

theorem seedSelect_nil (pw : List Word) (r : Nat → Nat) :
    seedSelect ([] : Chain) pw r = .error GenError.emptyChoice := by
  unfold seedSelect
  by_cases h1 : 2 ≤ pw.length
  · rw [if_pos h1]
    rfl
  · rw [if_neg h1]
    by_cases h2 : pw.length = 1
    · rw [if_pos h2]
      rfl
    · rw [if_neg h2]
      rfl

theorem extendLoop_ok (chain : Chain) (r : Nat → Nat) (maxLength : Nat)
    (hne : chain ≠ []) :
    ∀ (fuel n : Nat) (gw : List Word),
      ∃ res, extendLoop chain r maxLength fuel n gw = .ok res ∧
        (∃ t, res = gw ++ t) ∧ gw.length ≤ res.length ∧
        (maxLength ≤ fuel + gw.length → maxLength ≤ res.length) := by
  intro fuel
  induction fuel with
  | zero =>
    intro n gw
    exact ⟨gw, rfl, ⟨[], by simp⟩, le_refl _, fun h => by simpa using h⟩
  | succ fuel ih =>
    intro n gw
    by_cases hlt : gw.length < maxLength
    · rcases hget : dictGet chain (last2 gw) with _ | (_ | ⟨f, fs⟩)
      · obtain ⟨kk, hch, _⟩ :=
          choice_ok_of_ne_nil r n (keys chain) (keys_ne_nil hne)
        obtain ⟨res, h1, ⟨t, ht⟩, h2, h3⟩ := ih (n + 1) (gw ++ [kk.1, kk.2])
        refine ⟨res, ?_,
          ⟨[kk.1, kk.2] ++ t, by rw [ht, List.append_assoc]⟩, ?_, ?_⟩
        · simp only [extendLoop, if_pos hlt, hget, hch]
          exact h1
        · simp only [List.length_append, List.length_cons,
            List.length_nil] at h2
          omega
        · intro hm
          refine h3 ?_
          simp only [List.length_append, List.length_cons, List.length_nil]
          omega
      · obtain ⟨kk, hch, _⟩ :=
          choice_ok_of_ne_nil r n (keys chain) (keys_ne_nil hne)
        obtain ⟨res, h1, ⟨t, ht⟩, h2, h3⟩ := ih (n + 1) (gw ++ [kk.1, kk.2])
        refine ⟨res, ?_,
          ⟨[kk.1, kk.2] ++ t, by rw [ht, List.append_assoc]⟩, ?_, ?_⟩
        · simp only [extendLoop, if_pos hlt, hget, hch]
          exact h1
        · simp only [List.length_append, List.length_cons,
            List.length_nil] at h2
          omega
        · intro hm
          refine h3 ?_
          simp only [List.length_append, List.length_cons, List.length_nil]
          omega
      · obtain ⟨w, hch, _⟩ :=
          choice_ok_of_ne_nil r n (f :: fs) (List.cons_ne_nil _ _)
        obtain ⟨res, h1, ⟨t, ht⟩, h2, h3⟩ := ih (n + 1) (gw ++ [w])
        refine ⟨res, ?_, ⟨[w] ++ t, by rw [ht, List.append_assoc]⟩, ?_, ?_⟩
        · simp only [extendLoop, if_pos hlt, hget, hch]
          exact h1
        · simp only [List.length_append, List.length_cons,
            List.length_nil] at h2
          omega
        · intro hm
          refine h3 ?_
          simp only [List.length_append, List.length_cons, List.length_nil]
          omega
    · refine ⟨gw, ?_, ⟨[], by simp⟩, le_refl _, fun _ => by omega⟩
      simp only [extendLoop, if_neg hlt]

theorem extendLoop_le (chain : Chain) (r : Nat → Nat) (maxLength : Nat) :
    ∀ (fuel n : Nat) (gw res : List Word),
      gw.length ≤ maxLength + 1 →
      extendLoop chain r maxLength fuel n gw = .ok res →
      res.length ≤ maxLength + 1 := by
  intro fuel
  induction fuel with
  | zero =>
    intro n gw res hle h
    simp only [extendLoop, Except.ok.injEq] at h
    subst h
    exact hle
  | succ fuel ih =>
    intro n gw res hle h
    simp only [extendLoop] at h
    by_cases hlt : gw.length < maxLength
    · rw [if_pos hlt] at h
      rcases hget : dictGet chain (last2 gw) with _ | (_ | ⟨f, fs⟩) <;>
        simp only [hget] at h
      · cases hch : choice r n (keys chain) with
        | error e => simp only [hch] at h; exact Except.noConfusion h
        | ok kk =>
          simp only [hch] at h
          refine ih _ _ res ?_ h
          simp only [List.length_append, List.length_cons, List.length_nil]
          omega
      · cases hch : choice r n (keys chain) with
        | error e => simp only [hch] at h; exact Except.noConfusion h
        | ok kk =>
          simp only [hch] at h
          refine ih _ _ res ?_ h
          simp only [List.length_append, List.length_cons, List.length_nil]
          omega
      · obtain ⟨w, hch, _⟩ :=
          choice_ok_of_ne_nil r n (f :: fs) (List.cons_ne_nil _ _)
        simp only [hch] at h
        refine ih _ _ res ?_ h
        simp only [List.length_append, List.length_cons, List.length_nil]
        omega
    · rw [if_neg hlt] at h
      simp only [Except.ok.injEq] at h
      subst h
      exact hle

theorem seedSelect_ok (chain : Chain) (pw : List Word) (r : Nat → Nat)
    (hne : chain ≠ []) :
    ∃ n gw0, seedSelect chain pw r = .ok (n, gw0) ∧ 2 ≤ gw0.length ∧
      (gw0 = pw ∨ gw0.length = 2) := by
  simp only [seedSelect]
  by_cases h1 : 2 ≤ pw.length
  · rw [if_pos h1]
    by_cases h2 : (dictGet chain (last2 pw)).isSome = true
    · rw [if_pos h2]
      exact ⟨0, pw, rfl, h1, Or.inl rfl⟩
    · rw [if_neg h2]
      obtain ⟨kk, hch, _⟩ :=
        choice_ok_of_ne_nil r 0 (keys chain) (keys_ne_nil hne)
      simp only [hch]
      exact ⟨1, [kk.1, kk.2], rfl, by simp, Or.inr (by simp)⟩
  · rw [if_neg h1]
    by_cases h2 : pw.length = 1
    · rw [if_pos h2]
      by_cases hc :
          ((keys chain).filter (fun x => x.1 == pw.getD 0 [])).isEmpty = true
      · rw [if_pos hc]
        obtain ⟨kk, hch, _⟩ :=
          choice_ok_of_ne_nil r 0 (keys chain) (keys_ne_nil hne)
        simp only [hch]
        exact ⟨1, [kk.1, kk.2], rfl, by simp, Or.inr (by simp)⟩
      · rw [if_neg hc]
        obtain ⟨kk, hch, _⟩ :=
          choice_ok_of_ne_nil r 0
            ((keys chain).filter (fun x => x.1 == pw.getD 0 []))
            (fun hnil => hc (by rw [hnil]; rfl))
        simp only [hch]
        exact ⟨1, [pw.getD 0 [], kk.2], rfl, by simp, Or.inr (by simp)⟩
    · rw [if_neg h2]
      obtain ⟨kk, hch, _⟩ :=
        choice_ok_of_ne_nil r 0 (keys chain) (keys_ne_nil hne)
      simp only [hch]
      exact ⟨1, [kk.1, kk.2], rfl, by simp, Or.inr (by simp)⟩

theorem seedSelect_shape (chain : Chain) (pw : List Word) (r : Nat → Nat)
    (n : Nat) (gw0 : List Word)
    (h : seedSelect chain pw r = .ok (n, gw0)) :
    gw0 = pw ∨ gw0.length = 2 := by
  simp only [seedSelect] at h
  by_cases h1 : 2 ≤ pw.length
  · rw [if_pos h1] at h
    by_cases h2 : (dictGet chain (last2 pw)).isSome = true
    · rw [if_pos h2] at h
      simp only [Except.ok.injEq, Prod.mk.injEq] at h
      obtain ⟨rfl, rfl⟩ := h
      exact Or.inl rfl
    · rw [if_neg h2] at h
      cases hch : choice r 0 (keys chain) with
      | error e => simp only [hch] at h; exact Except.noConfusion h
      | ok kk =>
        simp only [hch, Except.ok.injEq, Prod.mk.injEq] at h
        obtain ⟨rfl, rfl⟩ := h
        exact Or.inr rfl
  · rw [if_neg h1] at h
    by_cases h2 : pw.length = 1
    · rw [if_pos h2] at h
      by_cases hc :
          ((keys chain).filter (fun x => x.1 == pw.getD 0 [])).isEmpty = true
      · rw [if_pos hc] at h
        cases hch : choice r 0 (keys chain) with
        | error e => simp only [hch] at h; exact Except.noConfusion h
        | ok kk =>
          simp only [hch, Except.ok.injEq, Prod.mk.injEq] at h
          obtain ⟨rfl, rfl⟩ := h
          exact Or.inr rfl
      · rw [if_neg hc] at h
        cases hch : choice r 0
            ((keys chain).filter (fun x => x.1 == pw.getD 0 [])) with
        | error e => simp only [hch] at h; exact Except.noConfusion h
        | ok kk =>
          simp only [hch, Except.ok.injEq, Prod.mk.injEq] at h
          obtain ⟨rfl, rfl⟩ := h
          exact Or.inr rfl
    · rw [if_neg h2] at h
      cases hch : choice r 0 (keys chain) with
      | error e => simp only [hch] at h; exact Except.noConfusion h
      | ok kk =>
        simp only [hch, Except.ok.injEq, Prod.mk.injEq] at h
        obtain ⟨rfl, rfl⟩ := h
        exact Or.inr rfl

/-- C7 counterexample: with an empty transition table, `generate` does not
signal a distinct "model not trained" error; it fails with the generic
empty-random-selection error (`random.choice` raising `IndexError`), the
only error kind present in the code. -/
theorem generate_empty_table_cex :
    generate ([] : Chain) "a b".data (fun _ => 0) 5 =
      .error GenError.emptyChoice := by rfl

/-- C7 amended: for every prompt, oracle and length, an empty transition
table makes `generate` fail with the generic empty-random-selection error
(`IndexError` from `random.choice`); no distinct "model not trained" error
kind exists in the code. -/
theorem generate_empty_table_raises (prompt : List Char) (r : Nat → Nat)
    (maxLength : Nat) :
    generate ([] : Chain) prompt r maxLength = .error GenError.emptyChoice := by
  unfold generate generateWords rawWords
  rw [seedSelect_nil]

/-- C4: with a non-empty transition table and `maxLength ≥ 2`, `generate`
succeeds for every prompt and random source, and the returned string joins
a word list of at least `maxLength` and at least `2` words. -/
theorem generate_min_length (chain : Chain) (prompt : List Char)
    (r : Nat → Nat) (maxLength : Nat)
    (hne : chain ≠ []) (hml : 2 ≤ maxLength) :
    ∃ gw, generateWords chain prompt r maxLength = .ok gw ∧
      generate chain prompt r maxLength = .ok (List.intercalate [' '] gw) ∧
      maxLength ≤ gw.length ∧ 2 ≤ gw.length := by
  obtain ⟨n, gw0, hse, hg2, _⟩ := seedSelect_ok chain (promptTokens prompt) r hne
  obtain ⟨res, hres, _, hlen, hmax⟩ :=
    extendLoop_ok chain r maxLength hne maxLength n gw0
  have h1 : maxLength ≤ res.length := hmax (by omega)
  refine ⟨(if promptCap prompt then capFirst res else res), ?_, ?_, ?_, ?_⟩
  · simp only [generateWords, rawWords, hse, hres]
  · simp only [generate, generateWords, rawWords, hse, hres]
  · cases hc : promptCap prompt <;> simp [capFirst_length, h1]
  · cases hc : promptCap prompt <;> simp [capFirst_length] <;> omega

/-- Witness for C4 at a concrete instance. -/
theorem generate_min_length_witness :
    ([(("a".data, "b".data), ["c".data]), (("b".data, "c".data), ["d".data])]
        : Chain) ≠ [] ∧ (2 : Nat) ≤ 4 ∧
      ∃ gw, generateWords
          [(("a".data, "b".data), ["c".data]),
            (("b".data, "c".data), ["d".data])] "A b".data (fun _ => 0) 4 =
          .ok gw ∧
        generate [(("a".data, "b".data), ["c".data]),
            (("b".data, "c".data), ["d".data])] "A b".data (fun _ => 0) 4 =
          .ok (List.intercalate [' '] gw) ∧
        4 ≤ gw.length ∧ 2 ≤ gw.length :=
  ⟨by decide, by decide, generate_min_length _ _ _ _ (by decide) (by decide)⟩

/-- C5 counterexample: with table `{("a","b"): ["c"]}` and `max_length = 1`,
`generate("x y z a b", 1)` returns five words — more than
`max_length + 1 = 2` — because the found prompt seed keeps all five prompt
tokens and the loop never trims. -/
theorem generate_overshoot_cex :
    (generateWords [(("a".data, "b".data), ["c".data])] "x y z a b".data
        (fun _ => 0) 1).map List.length = Except.ok 5 ∧ ¬ (5 : Nat) ≤ 1 + 1 :=
  ⟨by rfl, by decide⟩

/-- C5 amended: for `max_length ≥ 1`, whenever the prompt tokenizes to at
most `max_length + 1` words (in particular for every prompt that does not
itself exceed the budget), the word count of `generate`'s output is at most
`max_length + 1`: the only overshoot is the untrimmed word pair appended in
a dead-end recovery. -/
theorem generate_length_bound (chain : Chain) (prompt : List Char)
    (r : Nat → Nat) (maxLength : Nat) (gw : List Word)
    (hml : 1 ≤ maxLength)
    (hp : (promptTokens prompt).length ≤ maxLength + 1)
    (hok : generateWords chain prompt r maxLength = .ok gw) :
    gw.length ≤ maxLength + 1 := by
  simp only [generateWords, rawWords] at hok
  cases hse : seedSelect chain (promptTokens prompt) r with
  | error e => simp only [hse] at hok; exact Except.noConfusion hok
  | ok p =>
    obtain ⟨n, gw0⟩ := p
    simp only [hse] at hok
    cases hres : extendLoop chain r maxLength maxLength n gw0 with
    | error e => simp only [hres] at hok; exact Except.noConfusion hok
    | ok res =>
      simp only [hres, Except.ok.injEq] at hok
      have hgw0 : gw0.length ≤ maxLength + 1 := by
        rcases seedSelect_shape chain (promptTokens prompt) r n gw0 hse with
          h | h
        · rw [h]; exact hp
        · omega
      have hb := extendLoop_le chain r maxLength maxLength n gw0 res hgw0 hres
      rw [← hok]
      cases hc : promptCap prompt <;> simp [capFirst_length] <;> omega

/-- Witness for C5 (amended) at a concrete instance. -/
theorem generate_length_bound_witness :
    (1 : Nat) ≤ 3 ∧
      (promptTokens "a b".data).length ≤ 3 + 1 ∧
      generateWords [(("a".data, "b".data), ["c".data])] "a b".data
          (fun _ => 0) 3 = .ok [['a'], ['b'], ['c']] ∧
      (([['a'], ['b'], ['c']] : List Word).length ≤ 3 + 1) :=
  ⟨by decide, by decide, by rfl,
    generate_length_bound [(("a".data, "b".data), ["c".data])] "a b".data
      (fun _ => 0) 3 [['a'], ['b'], ['c']] (by decide) (by decide) (by rfl)⟩

/-- C3: for a prompt with at least two tokens: if the last-two-token bigram
is a key of the table, the output begins with the entire tokenized prompt
(case per the capitalization post-processing); if it is not, the prompt
tokens are discarded and the output begins with the two words of the
random key selected by the oracle from the key list. -/
theorem generate_prompt_seed (chain : Chain) (prompt : List Char)
    (r : Nat → Nat) (maxLength : Nat)
    (hne : chain ≠ [])
    (h2 : 2 ≤ (promptTokens prompt).length) :
    ((dictGet chain (last2 (promptTokens prompt))).isSome = true →
      ∃ rest, rawWords chain prompt r maxLength =
          .ok (promptTokens prompt ++ rest) ∧
        generate chain prompt r maxLength =
          .ok (List.intercalate [' ']
            (if promptCap prompt then capFirst (promptTokens prompt ++ rest)
             else promptTokens prompt ++ rest)))
    ∧ ((dictGet chain (last2 (promptTokens prompt))).isSome = false →
      ∃ k rest, choice r 0 (keys chain) = .ok k ∧ k ∈ keys chain ∧
        rawWords chain prompt r maxLength = .ok (k.1 :: k.2 :: rest) ∧
        generate chain prompt r maxLength =
          .ok (List.intercalate [' ']
            (if promptCap prompt then capFirst (k.1 :: k.2 :: rest)
             else k.1 :: k.2 :: rest))) := by
  constructor
  · intro hsome
    have hse : seedSelect chain (promptTokens prompt) r =
        .ok (0, promptTokens prompt) := by
      simp only [seedSelect]
      rw [if_pos h2, if_pos hsome]
    obtain ⟨res, hres, ⟨t, ht⟩, _, _⟩ :=
      extendLoop_ok chain r maxLength hne maxLength 0 (promptTokens prompt)
    refine ⟨t, ?_, ?_⟩
    · simp only [rawWords, hse, hres, ht]
    · simp only [generate, generateWords, rawWords, hse, hres, ht]
  · intro hnone
    obtain ⟨k, hch, hmem⟩ :=
      choice_ok_of_ne_nil r 0 (keys chain) (keys_ne_nil hne)
    have hse : seedSelect chain (promptTokens prompt) r =
        .ok (1, [k.1, k.2]) := by
      simp only [seedSelect]
      rw [if_pos h2,
        if_neg (show ¬ (dictGet chain
          (last2 (promptTokens prompt))).isSome = true by simp [hnone])]
      simp only [hch]
    obtain ⟨res, hres, ⟨t, ht⟩, _, _⟩ :=
      extendLoop_ok chain r maxLength hne maxLength 1 [k.1, k.2]
    refine ⟨k, t, hch, hmem, ?_, ?_⟩
    · simp only [rawWords, hse, hres, ht]
      rfl
    · simp only [generate, generateWords, rawWords, hse, hres, ht]
      rfl

/-- Witness for C3 at a concrete instance (found-bigram case). -/
theorem generate_prompt_seed_witness :
    (([(("a".data, "b".data), ["c".data]), (("b".data, "c".data), ["d".data])]
        : Chain) ≠ []) ∧
      2 ≤ (promptTokens "A b".data).length ∧
      (dictGet [(("a".data, "b".data), ["c".data]),
          (("b".data, "c".data), ["d".data])]
        (last2 (promptTokens "A b".data))).isSome = true ∧
      (∃ rest, rawWords [(("a".data, "b".data), ["c".data]),
            (("b".data, "c".data), ["d".data])] "A b".data (fun _ => 0) 4 =
          .ok (promptTokens "A b".data ++ rest) ∧
        generate [(("a".data, "b".data), ["c".data]),
            (("b".data, "c".data), ["d".data])] "A b".data (fun _ => 0) 4 =
          .ok (List.intercalate [' ']
            (if promptCap "A b".data then
              capFirst (promptTokens "A b".data ++ rest)
             else promptTokens "A b".data ++ rest))) :=
  ⟨by decide, by decide, by decide,
    (generate_prompt_seed
      [(("a".data, "b".data), ["c".data]), (("b".data, "c".data), ["d".data])]
      "A b".data (fun _ => 0) 4 (by decide) (by decide)).1 (by decide)⟩

/-- C9: after a successful run, if the prompt is non-empty and starts with
an uppercase character the first output word is returned with its first
letter uppercased and the remainder lowercased; otherwise the words are
joined as-is with single spaces. -/
theorem generate_capitalization (chain : Chain) (prompt : List Char)
    (r : Nat → Nat) (maxLength : Nat) (c : Char) (cs : List Char)
    (ws : List Word)
    (hok : rawWords chain prompt r maxLength = .ok ((c :: cs) :: ws)) :
    (promptCap prompt = true →
        generate chain prompt r maxLength =
          .ok (List.intercalate [' ']
            ((c.toUpper :: cs.map Char.toLower) :: ws)))
      ∧ (promptCap prompt = false →
          generate chain prompt r maxLength =
            .ok (List.intercalate [' '] ((c :: cs) :: ws)))
      ∧ (promptCap prompt = true ↔
          ∃ d ds, prompt = d :: ds ∧ d.isUpper = true) := by
  refine ⟨?_, ?_, ?_⟩
  · intro hcap
    simp only [generate, generateWords, hok, hcap, if_true, capFirst,
      pyCapitalize]
  · intro hcap
    simp only [generate, generateWords, hok, hcap, Bool.false_eq_true,
      if_false]
  · cases prompt with
    | nil => simp [promptCap]
    | cons d ds =>
      simp only [promptCap]
      constructor
      · intro hd
        exact ⟨d, ds, rfl, hd⟩
      · rintro ⟨d2, ds2, heq, hd2⟩
        cases heq
        exact hd2

/-- Witness for C9 at a concrete instance. -/
theorem generate_capitalization_witness :
    rawWords [(("a".data, "b".data), ["c".data]),
        (("b".data, "c".data), ["d".data])] "A b".data (fun _ => 0) 4 =
      .ok (['a'] :: ['b'] :: ['c'] :: ['d'] :: []) ∧
    promptCap "A b".data = true ∧
    generate [(("a".data, "b".data), ["c".data]),
        (("b".data, "c".data), ["d".data])] "A b".data (fun _ => 0) 4 =
      .ok "A b c d".data :=
  ⟨by rfl, by rfl,
    (generate_capitalization
      [(("a".data, "b".data), ["c".data]), (("b".data, "c".data), ["d".data])]
      "A b".data (fun _ => 0) 4 'a' [] [['b'], ['c'], ['d']] (by rfl)).1
      (by rfl)⟩

/-! ### Chain construction and immutability helpers -/

theorem addSucc_inv (chain : Chain) (key : Bigram) (w : Word)
    (h : ∀ e ∈ chain, e.2 ≠ []) :
    ∀ e ∈ addSucc chain key w, e.2 ≠ [] := by
  intro e he
  unfold addSucc at he
  by_cases hmem : chain.any (fun x => x.1 == key) = true
  · rw [if_pos hmem] at he
    obtain ⟨e0, he0, rfl⟩ := List.mem_map.mp he
    by_cases hk : (e0.1 == key) = true
    · simp [hk]
    · simp only [hk, Bool.false_eq_true, if_false]
      exact h e0 he0
  · rw [if_neg hmem] at he
    rcases List.mem_append.mp he with h1 | h1
    · exact h e h1
    · rw [List.mem_singleton] at h1
      subst h1
      simp

theorem buildChainAux_inv :
    ∀ (l : List Word) (chain : Chain), (∀ e ∈ chain, e.2 ≠ []) →
      ∀ e ∈ buildChainAux chain l, e.2 ≠ [] := by
  intro l
  induction l with
  | nil => intro chain h; simpa [buildChainAux] using h
  | cons a tail ih =>
    intro chain h
    cases tail with
    | nil => simpa [buildChainAux] using h
    | cons b tail2 =>
      cases tail2 with
      | nil => simpa [buildChainAux] using h
      | cons c rest =>
        have := ih (addSucc chain (a, b) c) (addSucc_inv chain (a, b) c h)
        simpa [buildChainAux] using this

theorem extendLoopT_fst (chain : Chain) (r : Nat → Nat) (maxLength : Nat) :
    ∀ (fuel n : Nat) (gw : List Word),
      (extendLoopT chain r maxLength fuel n gw).1 = chain := by
  intro fuel
  induction fuel with
  | zero => intro n gw; simp [extendLoopT]
  | succ fuel ih =>
    intro n gw
    simp only [extendLoopT, dictGetS, dictKeysS]
    by_cases hlt : gw.length < maxLength
    · rw [if_pos hlt]
      rcases hget : dictGet chain (last2 gw) with _ | (_ | ⟨f, fs⟩) <;>
        simp only [hget]
      · cases hch : choice r n (keys chain) with
        | error e => simp [hch]
        | ok kk => simp only [hch]; exact ih _ _
      · cases hch : choice r n (keys chain) with
        | error e => simp [hch]
        | ok kk => simp only [hch]; exact ih _ _
      · cases hch : choice r n (f :: fs) with
        | error e => simp [hch]
        | ok w => simp only [hch]; exact ih _ _
    · rw [if_neg hlt]

theorem seedSelectT_fst (chain : Chain) (pw : List Word) (r : Nat → Nat) :
    (seedSelectT chain pw r).1 = chain := by
  simp only [seedSelectT, dictMemS, dictKeysS]
  by_cases h1 : 2 ≤ pw.length
  · rw [if_pos h1]
    by_cases h2 : (dictGet chain (last2 pw)).isSome = true
    · simp [h2]
    · simp only [h2, Bool.false_eq_true, if_false]
      cases hch : choice r 0 (keys chain) with
      | error e => simp [hch]
      | ok kk => simp [hch]
  · rw [if_neg h1]
    by_cases h2 : pw.length = 1
    · rw [if_pos h2]
      by_cases hc :
          ((keys chain).filter (fun x => x.1 == pw.getD 0 [])).isEmpty = true
      · rw [if_pos hc]
        cases hch : choice r 0 (keys chain) with
        | error e => simp [hch]
        | ok kk => simp [hch]
      · rw [if_neg hc]
        cases hch : choice r 0
            ((keys chain).filter (fun x => x.1 == pw.getD 0 [])) with
        | error e => simp [hch]
        | ok kk => simp [hch]
    · rw [if_neg h2]
      cases hch : choice r 0 (keys chain) with
      | error e => simp [hch]
      | ok kk => simp [hch]

theorem generateT_fst (chain : Chain) (prompt : List Char) (r : Nat → Nat)
    (maxLength : Nat) : (generateT chain prompt r maxLength).1 = chain := by
  simp only [generateT]
  have hfst := seedSelectT_fst chain (promptTokens prompt) r
  rcases hse : seedSelectT chain (promptTokens prompt) r with ⟨chain1, res⟩
  rw [hse] at hfst
  have h1 : chain1 = chain := hfst
  rw [h1]
  cases res with
  | error e => rfl
  | ok p =>
    obtain ⟨n, gw0⟩ := p
    have hfst2 := extendLoopT_fst chain r maxLength maxLength n gw0
    rcases hel : extendLoopT chain r maxLength maxLength n gw0 with
      ⟨chain2, res2⟩
    rw [hel] at hfst2
    have h2 : chain2 = chain := hfst2
    cases res2 with
    | error e => simp only [hel, h2]
    | ok gw2 => simp only [hel, h2]

/-- C8: every key produced by `_build_chain` maps to a non-empty successor
list (a key is created only together with its first successor), and a
`generate` call leaves the transition table unchanged: the state-threaded
embedding of the call, in which every dictionary access returns the table
it leaves behind, returns the table it was given. -/
theorem chain_invariant_and_immutable :
    (∀ (ws : List Word) (e : Bigram × List Word),
        e ∈ buildChain ws → e.2 ≠ [])
      ∧ (∀ (chain : Chain) (prompt : List Char) (r : Nat → Nat)
          (maxLength : Nat), (generateT chain prompt r maxLength).1 = chain) := by
  constructor
  · intro ws e he
    exact buildChainAux_inv ws [] (by simp) e he
  · intro chain prompt r maxLength
    exact generateT_fst chain prompt r maxLength

/-- Witness for C8 at a concrete instance. -/
theorem chain_invariant_and_immutable_witness :
    ((("a".data, "b".data), ["c".data]) ∈
        buildChain ["a".data, "b".data, "c".data] ∧
      ((("a".data, "b".data), ["c".data]) : Bigram × List Word).2 ≠ []) ∧
      (generateT [(("a".data, "b".data), ["c".data])] "a b".data
          (fun _ => 0) 3).1 = [(("a".data, "b".data), ["c".data])] :=
  ⟨⟨by decide,
    chain_invariant_and_immutable.1 ["a".data, "b".data, "c".data]
      (("a".data, "b".data), ["c".data]) (by decide)⟩,
    chain_invariant_and_immutable.2 [(("a".data, "b".data), ["c".data])]
      "a b".data (fun _ => 0) 3⟩

/-! ### Summarizer selection helpers (C2) -/

theorem scoredSentences_length (sents : List (List Char)) :
    (scoredSentences sents).length = sents.length := by
  simp [scoredSentences]

theorem scoredSentences_map_idx (sents : List (List Char)) :
    (scoredSentences sents).map (fun t => t.2.1) = sents.enum.map Prod.fst := by
  simp only [scoredSentences, List.map_map]
  rfl

theorem mem_scoredSentences (sents : List (List Char))
    (t : Nat × Nat × List Char) (ht : t ∈ scoredSentences sents) :
    ∃ i, ∃ hi : i < sents.length,
      t = (sentenceScore sents (sents.get ⟨i, hi⟩), i, sents.get ⟨i, hi⟩) := by
  obtain ⟨p, hp, rfl⟩ := List.mem_map.mp ht
  obtain ⟨i, x⟩ := p
  have hx := List.mem_enum_iff_getElem?.mp hp
  obtain ⟨hi, hval⟩ := List.getElem?_eq_some.mp hx
  refine ⟨i, hi, ?_⟩
  simp only [List.get_eq_getElem, hval]

theorem scored_mem_of_lt (sents : List (List Char)) (j : Nat)
    (hj : j < sents.length) :
    (sentenceScore sents (sents.get ⟨j, hj⟩), j, sents.get ⟨j, hj⟩) ∈
      scoredSentences sents := by
  refine List.mem_map.mpr ⟨(j, sents.get ⟨j, hj⟩), ?_, rfl⟩
  refine List.mk_mem_enum_iff_getElem?.mpr ?_
  simp [List.getElem?_eq_getElem hj]

theorem getD_eq_get (l : List (List Char)) (j : Nat) (hj : j < l.length) :
    l.getD j [] = l.get ⟨j, hj⟩ := by
  simp [List.getD_eq_getElem?_getD, List.getElem?_eq_getElem hj]

/-- C2: when the input has more than `maxSentences` sentences, `summarize`
returns exactly `maxSentences` of them: the selected triples carry strictly
increasing original positions (same relative order as the input), each is a
verbatim sentence of the input together with its frequency score, every
selected sentence beats every unselected one in the ranking by descending
score with ties broken by ascending position, and the output joins the
selected sentences with single spaces. -/
theorem summarize_selects_top_sentences (text : List Char) (k : Nat)
    (h : k < (tokenizeSentences text).length) :
    ∃ picked : List (Nat × Nat × List Char),
      summarize text k =
          List.intercalate [' '] (picked.map (fun t => t.2.2)) ∧
      picked.length = k ∧
      List.Pairwise (fun a b : Nat × Nat × List Char => a.2.1 < b.2.1)
        picked ∧
      (∀ t ∈ picked, t.2.1 < (tokenizeSentences text).length ∧
        (tokenizeSentences text).getD t.2.1 [] = t.2.2 ∧
        t.1 = sentenceScore (tokenizeSentences text) t.2.2) ∧
      (∀ j, j < (tokenizeSentences text).length →
        (∀ t ∈ picked, t.2.1 ≠ j) →
        ∀ t ∈ picked,
          sentenceScore (tokenizeSentences text)
              ((tokenizeSentences text).getD j []) < t.1 ∨
            (t.1 = sentenceScore (tokenizeSentences text)
                ((tokenizeSentences text).getD j []) ∧ t.2.1 < j)) := by
  refine ⟨List.insertionSort idxRel
    ((List.insertionSort scoreRel
      (scoredSentences (tokenizeSentences text))).take k), ?_, ?_, ?_, ?_, ?_⟩
  · simp only [summarize]
    rw [if_neg (not_le.mpr h)]
  · have hlen1 : (List.insertionSort scoreRel
        (scoredSentences (tokenizeSentences text))).length =
        (tokenizeSentences text).length :=
      (List.perm_insertionSort _ _).length_eq.trans
        (scoredSentences_length _)
    have := (List.perm_insertionSort idxRel
      ((List.insertionSort scoreRel
        (scoredSentences (tokenizeSentences text))).take k)).length_eq
    rw [this, List.length_take, hlen1]
    omega
  · have hsorted_idx : List.Sorted idxRel
        (List.insertionSort idxRel
          ((List.insertionSort scoreRel
            (scoredSentences (tokenizeSentences text))).take k)) :=
      List.sorted_insertionSort _ _
    have hnodup_scored :
        ((scoredSentences (tokenizeSentences text)).map
          (fun t => t.2.1)).Nodup := by
      rw [scoredSentences_map_idx]
      exact List.nodup_enum_map_fst _
    have hnodup_sorted1 :
        ((List.insertionSort scoreRel
          (scoredSentences (tokenizeSentences text))).map
            (fun t => t.2.1)).Nodup :=
      (((List.perm_insertionSort scoreRel
        (scoredSentences (tokenizeSentences text))).map _).nodup_iff).mpr
        hnodup_scored
    have hnodup_top :
        (((List.insertionSort scoreRel
          (scoredSentences (tokenizeSentences text))).take k).map
            (fun t => t.2.1)).Nodup :=
      ((List.take_sublist _ _).map _).nodup hnodup_sorted1
    have hnodup_picked :
        ((List.insertionSort idxRel
          ((List.insertionSort scoreRel
            (scoredSentences (tokenizeSentences text))).take k)).map
              (fun t => t.2.1)).Nodup :=
      (((List.perm_insertionSort idxRel _).map _).nodup_iff).mpr hnodup_top
    have hpw_ne := List.pairwise_map.mp hnodup_picked
    exact (List.Pairwise.and hsorted_idx hpw_ne).imp
      (fun hab => lt_of_le_of_ne hab.1 hab.2)
  · intro t ht
    have ht_top : t ∈ (List.insertionSort scoreRel
        (scoredSentences (tokenizeSentences text))).take k :=
      (List.perm_insertionSort idxRel _).mem_iff.mp ht
    have ht_sorted1 : t ∈ List.insertionSort scoreRel
        (scoredSentences (tokenizeSentences text)) :=
      (List.take_sublist _ _).subset ht_top
    have ht_scored : t ∈ scoredSentences (tokenizeSentences text) :=
      (List.perm_insertionSort scoreRel _).mem_iff.mp ht_sorted1
    obtain ⟨i, hi, rfl⟩ := mem_scoredSentences _ t ht_scored
    exact ⟨hi, (getD_eq_get _ i hi), rfl⟩
  · intro j hj hnotin t ht
    have hjd : (tokenizeSentences text).getD j [] =
        (tokenizeSentences text).get ⟨j, hj⟩ := getD_eq_get _ j hj
    rw [hjd]
    have htj_scored := scored_mem_of_lt (tokenizeSentences text) j hj
    have htj_sorted1 :
        (sentenceScore (tokenizeSentences text)
            ((tokenizeSentences text).get ⟨j, hj⟩), j,
          (tokenizeSentences text).get ⟨j, hj⟩) ∈
        List.insertionSort scoreRel
          (scoredSentences (tokenizeSentences text)) :=
      (List.perm_insertionSort scoreRel _).mem_iff.mpr htj_scored
    rw [← List.take_append_drop k (List.insertionSort scoreRel
      (scoredSentences (tokenizeSentences text)))] at htj_sorted1
    rcases List.mem_append.mp htj_sorted1 with htake | hdrop
    · exfalso
      have : (sentenceScore (tokenizeSentences text)
            ((tokenizeSentences text).get ⟨j, hj⟩), j,
          (tokenizeSentences text).get ⟨j, hj⟩) ∈
          List.insertionSort idxRel
            ((List.insertionSort scoreRel
              (scoredSentences (tokenizeSentences text))).take k) :=
        (List.perm_insertionSort idxRel _).mem_iff.mpr htake
      exact hnotin _ this rfl
    · have ht_top : t ∈ (List.insertionSort scoreRel
          (scoredSentences (tokenizeSentences text))).take k :=
        (List.perm_insertionSort idxRel _).mem_iff.mp ht
      have hsorted1 : List.Sorted scoreRel
          (List.insertionSort scoreRel
            (scoredSentences (tokenizeSentences text))) :=
        List.sorted_insertionSort _ _
      have hrel := hsorted1.rel_of_mem_take_of_mem_drop ht_top hdrop
      rcases hrel with h1 | ⟨h1, h2⟩
      · exact Or.inl h1
      · exact Or.inr ⟨h1, lt_of_le_of_ne h2 (hnotin t ht)⟩

/-- Witness for C2 at a concrete input. -/
theorem summarize_selects_top_sentences_witness :
    1 < (tokenizeSentences "One. Two. Three.".data).length ∧
      (∃ picked : List (Nat × Nat × List Char),
        summarize "One. Two. Three.".data 1 =
            List.intercalate [' '] (picked.map (fun t => t.2.2)) ∧
        picked.length = 1 ∧
        List.Pairwise (fun a b : Nat × Nat × List Char => a.2.1 < b.2.1)
          picked ∧
        (∀ t ∈ picked,
          t.2.1 < (tokenizeSentences "One. Two. Three.".data).length ∧
          (tokenizeSentences "One. Two. Three.".data).getD t.2.1 [] = t.2.2 ∧
          t.1 = sentenceScore (tokenizeSentences "One. Two. Three.".data)
            t.2.2) ∧
        (∀ j, j < (tokenizeSentences "One. Two. Three.".data).length →
          (∀ t ∈ picked, t.2.1 ≠ j) →
          ∀ t ∈ picked,
            sentenceScore (tokenizeSentences "One. Two. Three.".data)
                ((tokenizeSentences "One. Two. Three.".data).getD j []) <
                t.1 ∨
              (t.1 = sentenceScore
                  (tokenizeSentences "One. Two. Three.".data)
                  ((tokenizeSentences "One. Two. Three.".data).getD j []) ∧
                t.2.1 < j))) :=
  ⟨by decide, summarize_selects_top_sentences "One. Two. Three.".data 1
    (by decide)⟩

end Claims
